import Mathlib

/-!
# Verification of the dependency-extraction engine of `cargo-min`

This file shallowly embeds the core of the repository — `src/dependencies.rs`
(the `Version` handle, the error taxonomy, and `fetch_dependencies`) together
with the minimisation loop of `src/main.rs` — and proves/refutes the frozen
claims about it.

Modelling conventions:
* `toml_edit` values are embedded as inductive types mirroring the crate's
  `Item` / `Value` shapes; a `Formatted<String>` cell is a structure holding
  the literal value plus its display metadata (`repr`, decor prefix/suffix),
  with `Formatted.new` resetting the metadata to defaults exactly as the crate
  does.
* `semver::Version` is embedded as the numeric `major.minor.patch` triple (the
  repository never constructs or inspects pre-release/build components); its
  `FromStr`/`Display` pair is embedded as an executable decimal parser and
  printer over the `MAJOR.MINOR.PATCH` grammar.
* Rust's `&mut` cell inside the `Version` handle is modelled by explicit state
  passing: the handle carries the current cell state, and a write-back
  function (`releaseAll`) replays the drop-time cell write at the cell's
  path inside the document, which is how the mutable borrow commits in Rust.
* A `todo!` in the source is a panic, a distinct outcome from `Ok`/`Err`;
  results of the entry classifier therefore live in a three-valued `Outcome`.
-/

/-- `semver::Version`, numeric components (pre-release/build are never used by
this repository and are not modelled; components are `Nat`, the `u64` bound is
irrelevant to the claims). -/
structure SemVer where
  major : Nat
  minor : Nat
  patch : Nat
deriving DecidableEq, Repr

/-- Fuel-based decimal printer (structural recursion so that the kernel can
evaluate it); `fuel > n` is always sufficient since `n / 10 < n`. -/
def natToCharsAux (fuel : Nat) (n : Nat) (acc : List Char) : List Char :=
  match fuel with
  | 0 => acc
  | fuel + 1 =>
    if n < 10 then Nat.digitChar n :: acc
    else natToCharsAux fuel (n / 10) (Nat.digitChar (n % 10) :: acc)

/-- Decimal digit list of `n`, most significant first — the digits that
`Display for u64` produces. -/
def natToChars (n : Nat) : List Char :=
  natToCharsAux (n + 1) n []

def natToString (n : Nat) : String :=
  (natToChars n).asString

theorem natToCharsAux_acc (fuel : Nat) :
    ∀ n acc, natToCharsAux fuel n acc = natToCharsAux fuel n [] ++ acc := by
  induction fuel with
  | zero => intro n acc; simp [natToCharsAux]
  | succ fuel ih =>
    intro n acc
    by_cases h : n < 10
    · simp [natToCharsAux, h]
    · simp only [natToCharsAux, if_neg h]
      rw [ih (n / 10) (Nat.digitChar (n % 10) :: acc),
        ih (n / 10) [Nat.digitChar (n % 10)]]
      simp

theorem natToCharsAux_fuel (n : Nat) : ∀ f₁ f₂, n < f₁ → n < f₂ →
    natToCharsAux f₁ n [] = natToCharsAux f₂ n [] := by
  induction n using Nat.strong_induction_on with
  | _ n ih =>
    intro f₁ f₂ h₁ h₂
    match f₁, f₂ with
    | a + 1, b + 1 =>
      by_cases h : n < 10
      · simp [natToCharsAux, h]
      · simp only [natToCharsAux, if_neg h]
        rw [natToCharsAux_acc a, natToCharsAux_acc b]
        have hlt : n / 10 < n := Nat.div_lt_self (by omega) (by omega)
        rw [ih (n / 10) hlt a b (by omega) (by omega)]

theorem natToChars_lt {n : Nat} (h : n < 10) : natToChars n = [Nat.digitChar n] := by
  simp [natToChars, natToCharsAux, h]

theorem natToChars_ge {n : Nat} (h : 10 ≤ n) :
    natToChars n = natToChars (n / 10) ++ [Nat.digitChar (n % 10)] := by
  have hlt : n / 10 < n := Nat.div_lt_self (by omega) (by omega)
  conv_lhs => rw [natToChars]
  simp only [natToCharsAux, if_neg (by omega : ¬ n < 10)]
  rw [natToCharsAux_acc, natToCharsAux_fuel (n / 10) n (n / 10 + 1) (by omega) (by omega)]
  rfl

/-- `Display for semver::Version` restricted to the numeric grammar:
`"{major}.{minor}.{patch}"`. -/
def semverToString (v : SemVer) : String :=
  natToString v.major ++ "." ++ natToString v.minor ++ "." ++ natToString v.patch

/-- One numeric identifier of the semver grammar: nonempty, all digits, no
leading zero. Returns its value. -/
def parseNumericId (cs : List Char) : Option Nat :=
  if cs.isEmpty then none
  else if !(cs.all Char.isDigit) then none
  else if cs.length > 1 && cs.head? == some '0' then none
  else some (cs.foldl (fun acc c => acc * 10 + (c.toNat - 48)) 0)

/-- `semver::Version::from_str` restricted to the numeric
`MAJOR.MINOR.PATCH` grammar. -/
def parseSemverChars (cs : List Char) : Option SemVer :=
  match cs.dropWhile (fun c => c != '.') with
  | '.' :: rest =>
    match rest.dropWhile (fun c => c != '.') with
    | '.' :: rest2 =>
      match parseNumericId (cs.takeWhile (fun c => c != '.')),
            parseNumericId (rest.takeWhile (fun c => c != '.')),
            parseNumericId rest2 with
      | some major, some minor, some patch => some ⟨major, minor, patch⟩
      | _, _, _ => none
    | _ => none
  | _ => none

def parseSemver (s : String) : Option SemVer :=
  parseSemverChars s.toList

-- Sanity checks of the parser/printer pair on concrete input.
example : parseSemver "1.2.3" = some ⟨1, 2, 3⟩ := by decide
example : parseSemver "1.2" = none := by decide
example : parseSemver "01.2.3" = none := by decide
example : parseSemver "1.2.3.4" = none := by decide
example : semverToString ⟨10, 0, 25⟩ = "10.0.25" := by decide

theorem digitChar_isDigit {n : Nat} (h : n < 10) : (Nat.digitChar n).isDigit = true := by
  interval_cases n <;> decide

theorem digitChar_val {n : Nat} (h : n < 10) : (Nat.digitChar n).toNat - 48 = n := by
  interval_cases n <;> decide

theorem digitChar_ne_zero {n : Nat} (h1 : 1 ≤ n) (h : n < 10) : Nat.digitChar n ≠ '0' := by
  interval_cases n <;> decide

theorem natToChars_ne_nil (n : Nat) : natToChars n ≠ [] := by
  by_cases h : n < 10
  · rw [natToChars_lt h]; simp
  · rw [natToChars_ge (by omega)]; simp

theorem natToChars_all_digit (n : Nat) : (natToChars n).all Char.isDigit = true := by
  induction n using Nat.strong_induction_on with
  | _ n ih =>
    by_cases h : n < 10
    · rw [natToChars_lt h]; simp [digitChar_isDigit h]
    · rw [natToChars_ge (by omega)]
      have hlt : n / 10 < n := Nat.div_lt_self (by omega) (by omega)
      have hm : n % 10 < 10 := Nat.mod_lt n (by omega)
      simp [List.all_append, ih _ hlt, digitChar_isDigit hm]

theorem natToChars_head_ne_zero {n : Nat} (h : 1 ≤ n) :
    (natToChars n).head? ≠ some '0' := by
  induction n using Nat.strong_induction_on with
  | _ n ih =>
    by_cases h10 : n < 10
    · rw [natToChars_lt h10]
      simpa using digitChar_ne_zero h h10
    · rw [natToChars_ge (by omega)]
      have hlt : n / 10 < n := Nat.div_lt_self (by omega) (by omega)
      have h1 : 1 ≤ n / 10 := (Nat.one_le_div_iff (by omega)).mpr (by omega)
      have hh := ih (n / 10) hlt h1
      obtain ⟨a, as, hA⟩ := List.exists_cons_of_ne_nil (natToChars_ne_nil (n / 10))
      rw [hA] at hh ⊢
      simpa using hh

theorem foldl_natToChars (n : Nat) :
    (natToChars n).foldl (fun acc c => acc * 10 + (c.toNat - 48)) 0 = n := by
  induction n using Nat.strong_induction_on with
  | _ n ih =>
    by_cases h : n < 10
    · rw [natToChars_lt h]
      simp [digitChar_val h]
    · rw [natToChars_ge (by omega), List.foldl_append]
      have hlt : n / 10 < n := Nat.div_lt_self (by omega) (by omega)
      have hm : n % 10 < 10 := Nat.mod_lt n (by omega)
      rw [ih _ hlt]
      simp only [List.foldl_cons, List.foldl_nil, digitChar_val hm]
      omega

theorem parseNumericId_natToChars (n : Nat) : parseNumericId (natToChars n) = some n := by
  have h1 : (natToChars n).isEmpty = false := by
    simp [List.isEmpty_iff, natToChars_ne_nil n]
  have h2 : (!(natToChars n).all Char.isDigit) = false := by
    rw [natToChars_all_digit]; rfl
  have h3 : ((natToChars n).length > 1 && (natToChars n).head? == some '0') = false := by
    by_cases h : n < 10
    · rw [natToChars_lt h]; rfl
    · rw [Bool.and_eq_false_iff]
      right
      exact beq_eq_false_iff_ne.mpr (natToChars_head_ne_zero (by omega))
  simp [parseNumericId, h1, h2, h3, foldl_natToChars]

theorem digit_bne_dot {a : Char} (h : a.isDigit = true) : (a != '.') = true := by
  rcases eq_or_ne a '.' with rfl | hne
  · exact absurd h (by decide)
  · simp [hne]

theorem takeWhile_digits_append (A : List Char) (hA : A.all Char.isDigit = true)
    (B : List Char) : (A ++ '.' :: B).takeWhile (fun c => c != '.') = A := by
  induction A with
  | nil => simp
  | cons a as ih =>
    simp only [List.all_cons, Bool.and_eq_true] at hA
    simp [List.takeWhile_cons, digit_bne_dot hA.1, ih hA.2]

theorem dropWhile_digits_append (A : List Char) (hA : A.all Char.isDigit = true)
    (B : List Char) : (A ++ '.' :: B).dropWhile (fun c => c != '.') = '.' :: B := by
  induction A with
  | nil => simp
  | cons a as ih =>
    simp only [List.all_cons, Bool.and_eq_true] at hA
    simp [List.dropWhile_cons, digit_bne_dot hA.1, ih hA.2]

theorem parseSemverChars_roundtrip (v : SemVer) :
    parseSemverChars
      (natToChars v.major ++ '.' :: (natToChars v.minor ++ '.' :: natToChars v.patch)) =
      some v := by
  obtain ⟨a, b, c⟩ := v
  simp only [parseSemverChars,
    dropWhile_digits_append _ (natToChars_all_digit a) _,
    takeWhile_digits_append _ (natToChars_all_digit a) _,
    dropWhile_digits_append _ (natToChars_all_digit b) _,
    takeWhile_digits_append _ (natToChars_all_digit b) _,
    parseNumericId_natToChars]

theorem toList_semverToString (v : SemVer) :
    (semverToString v).toList =
      natToChars v.major ++ '.' :: (natToChars v.minor ++ '.' :: natToChars v.patch) := by
  simp [semverToString, natToString, String.toList, String.data_append,
    show ("." : String).data = ['.'] from rfl, List.asString]

theorem parseSemver_semverToString (v : SemVer) :
    parseSemver (semverToString v) = some v := by
  rw [parseSemver, toList_semverToString]
  exact parseSemverChars_roundtrip v

/-! ## The `toml_edit` data model (the slice the engine depends on) -/

/-- `toml_edit::Decor`: whitespace/comment text attached before and after a
value; `none` means "render with default decoration". -/
structure Decor where
  leading : Option String
  trailing : Option String
deriving DecidableEq, Repr

/-- `toml_edit::Formatted<String>`: the parsed literal value together with its
display metadata (`repr` is the raw source text including quoting style;
`none` means "render canonically"). -/
structure Formatted where
  value : String
  repr : Option String
  decor : Decor
deriving DecidableEq, Repr

/-- `Formatted::new`: a freshly-created cell carries the value with *default*
display metadata (no recorded source repr, default decor). -/
def Formatted.new (value : String) : Formatted :=
  { value := value, repr := none, decor := { leading := none, trailing := none } }

mutual
/-- `toml_edit::Value`. Payloads irrelevant to the engine (float, datetime)
are not carried; an integer carries its numeric value. -/
inductive Value where
  | string (f : Formatted)
  | integer (i : Int)
  | float
  | boolean (b : Bool)
  | datetime
  | array (elems : List Value)
  | inlineTable (entries : List (String × Value))

end

/-- `toml_edit::Item`. -/
inductive Item where
  | none
  | value (v : Value)
  | table (entries : List (String × Item))
  | arrayOfTables (tables : List (List (String × Item)))

/-- `toml_edit::Document` is, for the engine, its root table. -/
def Document := List (String × Item)

/-- First-match association-list lookup: `Table::get` / `InlineTable::get`
(keys are unique in parsed TOML). -/
def lookupFirst {α : Type} : List (String × α) → String → Option α
  | [], _ => Option.none
  | (k, v) :: rest, key => if k = key then some v else lookupFirst rest key

/-- Replace (the value of) the first entry with the given key, in place. -/
def replaceFirst {α : Type} (l : List (String × α)) (key : String) (f : α → α) :
    List (String × α) :=
  match l with
  | [] => []
  | (k, v) :: rest =>
    if k = key then (k, f v) :: rest else (k, v) :: replaceFirst rest key f

/-! ## `src/dependencies.rs` -/

/-- `semver::Error` (opaque in the crate); modelled as carrying the text that
failed to parse. -/
structure SemverError where
  input : String
deriving DecidableEq, Repr

/-- The `Version` handle of `src/dependencies.rs`: the borrowed
`Formatted<String>` cell (here: its current state), the semantic version
parsed from it, and the `changed` (dirty) flag. -/
structure Version where
  value : Formatted
  version : SemVer
  changed : Bool
deriving DecidableEq, Repr

/-- `Version::new`: parse the cell's current literal; on success the handle
starts with `changed = false`. -/
def Version.new (value : Formatted) : Except SemverError Version :=
  match parseSemver value.value with
  | some version => .ok { value := value, version := version, changed := false }
  | Option.none => .error ⟨value.value⟩

/-- `Version::get`. -/
def Version.get (self : Version) : SemVer :=
  self.version

/-- `Version::set`: replace the held version and mark dirty only when the new
version differs from the currently held one. -/
def Version.set (self : Version) (version : SemVer) : Version :=
  if version ≠ self.version then
    { self with changed := true, version := version }
  else
    self

/-- `Drop for Version`: if dirty, overwrite the backing cell with a freshly
formatted canonical rendering of the held version. (`changed` is not
cleared by the source.) -/
def Version.drop (self : Version) : Version :=
  if self.changed then
    { self with value := Formatted.new (semverToString self.version) }
  else
    self

/-- `Dependency` of `src/dependencies.rs`. -/
structure Dependency where
  name : String
  version : Version
deriving DecidableEq, Repr

/-- `DependencyType`. -/
inductive DependencyType where
  | Standard
  | Dev
deriving DecidableEq, Repr

def DependencyType.STANDARD : String := "dependencies"
def DependencyType.DEV : String := "dev-dependencies"

/-- `FetchDependenciesError` of `src/dependencies.rs`, verbatim constructor
and field names. -/
inductive FetchDependenciesError where
  | MissingDependencyItem
  | UnexpectedDependenciesItem (ty : String)
  | UnexpectedDependencyItem (key : String) (ty : String)
  | UnexpectedVersionType (key : String) (ty : String)
  | SemverParse (key : String) (error : SemverError)
  | MissingVersionKey (key : String)
deriving DecidableEq, Repr

/-- `value_to_type`. -/
def value_to_type : Value → String
  | .string _ => "String"
  | .integer _ => "Integer"
  | .float => "Float"
  | .boolean _ => "Boolean"
  | .datetime => "Datetime"
  | .array _ => "Array"
  | .inlineTable _ => "InlineTable"

/-- `item_to_type`. -/
def item_to_type : Item → String
  | .none => "None"
  | .value _ => "Value"
  | .table _ => "Table"
  | .arrayOfTables _ => "ArrayOfTables"

/-- The possible results of running a fallible Rust computation that may also
`panic` (a `todo!` is a panic, distinct from returning `Err`). -/
inductive Outcome (ε α : Type) where
  | ok (value : α)
  | err (error : ε)
  | panics (msg : String)
deriving DecidableEq, Repr

def Outcome.map {ε α β : Type} (f : α → β) : Outcome ε α → Outcome ε β
  | .ok a => .ok (f a)
  | .err e => .err e
  | .panics m => .panics m

/-- The per-entry closure of `fetch_dependencies` (the body of the
`iter_mut().map(...)` at src/dependencies.rs:127-166), including the
`todo!("support dependency tables")` arm for nested tables. -/
def classifyEntry (key : String) (item : Item) :
    Outcome FetchDependenciesError Dependency :=
  match item with
  | .value value =>
    match value with
    | .string value =>
      match Version.new value with
      | .ok ok => .ok { version := ok, name := key }
      | .error error => .err (.SemverParse key error)
    | .inlineTable table =>
      match lookupFirst table "version" with
      | Option.none => .err (.MissingVersionKey key)
      | some value =>
        match value with
        | .string value =>
          match Version.new value with
          | .ok ok => .ok { version := ok, name := key }
          | .error error => .err (.SemverParse key error)
        | other => .err (.UnexpectedVersionType key (value_to_type other))
    | other => .err (.UnexpectedVersionType key (value_to_type other))
  | .table _ => .panics "not yet implemented: support dependency tables"
  | other => .err (.UnexpectedDependencyItem key (item_to_type other))

/-- `iter_mut().map(...).collect::<Result<Vec<_>, _>>()`: classify the
entries in iteration order, short-circuiting at the first `Err` (or panic). -/
def classifyEntries : List (String × Item) → Outcome FetchDependenciesError (List Dependency)
  | [] => .ok []
  | (key, item) :: rest =>
    match classifyEntry key item with
    | .ok d => Outcome.map (fun ds => d :: ds) (classifyEntries rest)
    | .err e => .err e
    | .panics m => .panics m

/-- The `let dependency_group = match ty ...` binding of `fetch_dependencies`. -/
def dependencyGroup (ty : DependencyType) : String :=
  match ty with
  | .Standard => DependencyType.STANDARD
  | .Dev => DependencyType.DEV

/-- `fetch_dependencies` of `src/dependencies.rs`. -/
def fetch_dependencies (document : Document) (ty : DependencyType) :
    Outcome FetchDependenciesError (List Dependency) :=
  match lookupFirst document (dependencyGroup ty) with
  | Option.none => .err .MissingDependencyItem
  | some dependencies =>
    match dependencies with
    | .table table => classifyEntries table
    | other => .err (.UnexpectedDependenciesItem (item_to_type other))

/-! ## `src/main.rs` -/

/-- The minimisation loop body of `main` (src/main.rs:59-67): the Mutation
Policy applied to one semantic version. -/
def minimize (version : SemVer) : SemVer :=
  if version.major = 0 then
    { version with patch := 0 }
  else
    { version with minor := 0, patch := 0 }

/-! ## Helper lemmas about the `Version` handle lifecycle -/

/-- A sequence of `set` calls, applied in order. -/
def applySets (v : Version) (l : List SemVer) : Version :=
  l.foldl Version.set v

theorem Version.set_changed_true {v : Version} (h : v.changed = true) (w : SemVer) :
    (Version.set v w).changed = true := by
  unfold Version.set
  by_cases hw : w ≠ v.version <;> simp [hw, h]

theorem applySets_changed_true {v : Version} (h : v.changed = true) (l : List SemVer) :
    (applySets v l).changed = true := by
  induction l generalizing v with
  | nil => exact h
  | cons w l ih => exact ih (Version.set_changed_true h w)

theorem Version.set_self (v : Version) : Version.set v v.version = v := by
  simp [Version.set]

/-- A concrete backing cell (with a recorded source repr and non-default
decor) and the handle extracted from it, used by concrete instances below. -/
def sampleCell : Formatted :=
  { value := "1.2.3", repr := some "\"1.2.3\"",
    decor := { leading := some " ", trailing := some " # pinned" } }

def sampleHandle : Version :=
  { value := sampleCell, version := ⟨1, 2, 3⟩, changed := false }

example : Version.new sampleCell = .ok sampleHandle := rfl

/-! ## Claims -/

/-- C1 (counterexample): a handle freshly extracted from `sampleCell` holds
originally parsed version `1.2.3`; after `set 2.0.0` followed by
`set 1.2.3` the held version again equals the originally parsed one, yet
the dirty flag is `true` — so "dirty iff current version differs from the
originally parsed version" fails. -/
theorem c1_counterexample :
    Version.new sampleCell = .ok sampleHandle ∧
    (applySets sampleHandle [⟨2, 0, 0⟩, ⟨1, 2, 3⟩]).changed = true ∧
    (applySets sampleHandle [⟨2, 0, 0⟩, ⟨1, 2, 3⟩]).version = sampleHandle.version :=
  ⟨rfl, rfl, rfl⟩

/-- C1 (amended): after any sequence of `set` calls on a freshly extracted
(hence non-dirty) handle, the dirty flag is false **iff** every `set` was a
no-op, i.e. the handle still equals its initial state (so dirty = false still
implies the held version equals the originally parsed one, but the flag is
sticky: it is never cleared by setting the original version back). -/
theorem c1_dirty_iff_never_changed (v0 : Version) (l : List SemVer)
    (h : v0.changed = false) :
    (applySets v0 l).changed = false ↔ applySets v0 l = v0 := by
  constructor
  · intro hfin
    induction l generalizing v0 with
    | nil => rfl
    | cons w l ih =>
      by_cases hw : w = v0.version
      · subst hw
        rw [show applySets v0 (v0.version :: l) = applySets v0 l from by
          simp [applySets, Version.set_self]] at hfin ⊢
        exact ih v0 h hfin
      · exfalso
        have hchanged : (Version.set v0 w).changed = true := by
          simp [Version.set, Ne.symm, hw]
        have := applySets_changed_true hchanged l
        rw [show applySets (Version.set v0 w) l = applySets v0 (w :: l) from rfl] at this
        rw [hfin] at this
        exact Bool.false_ne_true this
  · intro hfin
    rw [hfin]
    exact h

/-- C1 witness: concrete instance of the amended claim — a single no-op `set`
of the original version leaves the handle non-dirty and equal to its initial
state. -/
theorem c1_witness :
    (applySets sampleHandle [⟨1, 2, 3⟩]).changed = false ↔
      applySets sampleHandle [⟨1, 2, 3⟩] = sampleHandle :=
  c1_dirty_iff_never_changed sampleHandle [⟨1, 2, 3⟩] rfl

/-- C4 (counterexample): releasing a dirty handle does *not* clear the dirty
flag — `Drop for Version` (src/dependencies.rs:42-48) writes the cell but
leaves `changed` untouched, contradicting "after the first release ... the
dirty flag is cleared". -/
theorem c4_counterexample :
    Version.new sampleCell = .ok sampleHandle ∧
    (Version.drop (Version.set sampleHandle ⟨2, 0, 0⟩)).changed = true :=
  ⟨rfl, rfl⟩

/-- C4 (amended): release is idempotent on the handle state — a second release
writes the same canonical text into the cell, so `drop ∘ drop = drop` — but
not because the dirty flag is cleared (it is not; in Rust the second call
simply never happens because `drop` runs at most once). -/
theorem c4_release_idempotent (v : Version) :
    Version.drop (Version.drop v) = Version.drop v := by
  unfold Version.drop
  by_cases h : v.changed = true <;> simp [h]

/-- C5 (counterexample): releasing a dirty handle replaces the *whole*
backing cell with a default-formatted one; the decor of `sampleCell`
(leading space, trailing comment) is not preserved, contradicting
"all formatting metadata of that cell other than the literal ... is
preserved unchanged". -/
theorem c5_counterexample :
    Version.new sampleCell = .ok sampleHandle ∧
    decide ((Version.drop (Version.set sampleHandle ⟨2, 0, 0⟩)).value.decor
      = sampleCell.decor) = false :=
  ⟨rfl, rfl⟩

/-- C5 (amended): when a dirty handle is released, the backing cell is
replaced wholesale by `Formatted::new` applied to the canonical string form
of the current version — the literal becomes the canonical text and all
display metadata (recorded repr/quoting, decor) is reset to the defaults
rather than preserved. -/
theorem c5_release_resets_formatting (v : Version) (h : v.changed = true) :
    (Version.drop v).value = Formatted.new (semverToString v.version) := by
  simp [Version.drop, h]

/-- C5 witness: the amended claim evaluated on a concrete dirty handle. -/
theorem c5_witness :
    (Version.drop (Version.set sampleHandle ⟨2, 0, 0⟩)).value =
      Formatted.new (semverToString ⟨2, 0, 0⟩) :=
  c5_release_resets_formatting (Version.set sampleHandle ⟨2, 0, 0⟩) rfl

/-- C6 (counterexample): the claim's example "0.0.4 stays 0.0.4" is false on
the code — the loop body of `main` zeroes the patch whenever major = 0, so
`0.0.4` minimizes to `0.0.0` (which is also what the claim's *rule* itself
prescribes; the claim contradicts its own rule on this input). -/
theorem c6_counterexample :
    minimize ⟨0, 0, 4⟩ = ⟨0, 0, 0⟩ ∧
    decide (minimize ⟨0, 0, 4⟩ = ⟨0, 0, 4⟩) = false :=
  ⟨rfl, rfl⟩

/-- C6 (amended): the Mutation Policy (loop body of `main`,
src/main.rs:59-67) is a total function on semantic versions: non-zero major
zeroes minor and patch, zero major zeroes only patch; `0.3.7 ↦ 0.3.0`,
`2.5.9 ↦ 2.0.0`, and `0.0.4 ↦ 0.0.0` (patch is zeroed even when it is the
only non-zero component). -/
theorem c6_mutation_policy (v : SemVer) :
    (v.major ≠ 0 → minimize v = ⟨v.major, 0, 0⟩) ∧
    (v.major = 0 → minimize v = ⟨0, v.minor, 0⟩) ∧
    minimize ⟨0, 3, 7⟩ = ⟨0, 3, 0⟩ ∧
    minimize ⟨2, 5, 9⟩ = ⟨2, 0, 0⟩ ∧
    minimize ⟨0, 0, 4⟩ = ⟨0, 0, 0⟩ := by
  obtain ⟨a, b, c⟩ := v
  refine ⟨fun h => ?_, fun h => ?_, by decide, by decide, by decide⟩
  · simp only at h
    simp [minimize, h]
  · simp only at h
    subst h
    simp [minimize]

/-- C6 witness: the policy at `2.5.9`. -/
theorem c6_witness : minimize ⟨2, 5, 9⟩ = ⟨2, 0, 0⟩ :=
  (c6_mutation_policy ⟨2, 5, 9⟩).1 (by decide)

/-- C8: for any handle extracted by `Version::new` and any semantic version
`w`, `set w` followed by release leaves a backing cell whose literal,
re-parsed, is exactly `w` (if `w` differs the canonical text is written and
re-parses to `w`; if `w` equals the original the untouched original text
already parses to `w`). -/
theorem c8_roundtrip (cell : Formatted) (v0 : Version) (w : SemVer)
    (h : Version.new cell = .ok v0) :
    parseSemver (Version.drop (Version.set v0 w)).value.value = some w := by
  unfold Version.new at h
  cases hp : parseSemver cell.value with
  | none => rw [hp] at h; cases h
  | some ver =>
    rw [hp] at h
    injection h with h
    subst h
    by_cases hw : w = ver
    · subst hw
      have h1 : Version.set ⟨cell, w, false⟩ w = ⟨cell, w, false⟩ := by
        simp [Version.set]
      have h2 : Version.drop ⟨cell, w, false⟩ = ⟨cell, w, false⟩ := by
        simp [Version.drop]
      rw [h1, h2]
      exact hp
    · have h1 : Version.set ⟨cell, ver, false⟩ w = ⟨cell, w, true⟩ := by
        simp [Version.set, hw]
      have h2 : (Version.drop ⟨cell, w, true⟩).value.value = semverToString w := by
        simp [Version.drop, Formatted.new]
      rw [h1, h2]
      exact parseSemver_semverToString w

/-- C8 witness: round-trip evaluated on the concrete sample handle with
`w = 0.1.0`. -/
theorem c8_witness :
    parseSemver (Version.drop (Version.set sampleHandle ⟨0, 1, 0⟩)).value.value =
      some ⟨0, 1, 0⟩ :=
  c8_roundtrip sampleCell sampleHandle ⟨0, 1, 0⟩ rfl

/-- C9: `set` with the currently held (`get`) value is a strict no-op (the
handle, dirty flag included, is unchanged), and releasing a never-dirtied
handle performs no mutation of the backing cell (the whole handle, cell
included, is unchanged by `drop`). -/
theorem c9_set_get_noop (v : Version) :
    Version.set v (Version.get v) = v ∧ (v.changed = false → Version.drop v = v) := by
  refine ⟨Version.set_self v, fun h => ?_⟩
  simp [Version.drop, h]

/-- C9 witness: concrete instance on the sample handle. -/
theorem c9_witness :
    Version.set sampleHandle (Version.get sampleHandle) = sampleHandle ∧
    Version.drop sampleHandle = sampleHandle :=
  ⟨(c9_set_get_noop sampleHandle).1, (c9_set_get_noop sampleHandle).2 rfl⟩

/-- C2 (counterexample): a dependency expressed as a full nested sub-table
hits the `todo!("support dependency tables")` arm — the fetch *panics*
(aborting unrecoverably) instead of failing with a distinct recoverable
error; no `UnsupportedEntryShape` variant exists in the error taxonomy. -/
theorem c2_counterexample :
    fetch_dependencies [("dependencies", Item.table [("nested", Item.table [])])]
      .Standard = .panics "not yet implemented: support dependency tables" :=
  rfl

/-- C2 (amended): for every table entry whose item is a full nested
sub-table, the entry classifier (and hence the whole fetch, by the
first-failure propagation of C7) aborts with the distinct not-implemented
panic `todo!("support dependency tables")` — it never silently skips the
entry and never reports one of the ordinary shape errors, but it is a
panic, not a recoverable error. -/
theorem c2_nested_table_panics (key : String) (entries : List (String × Item)) :
    classifyEntry key (Item.table entries) =
      .panics "not yet implemented: support dependency tables" :=
  rfl

/-- C3 (counterexample): the entry `name = 42` makes fetch fail with the
*version-field-type* error `UnexpectedVersionType { key: "name", ty: "Integer" }`
(src/dependencies.rs:156-159), not with the entry-shape error
`UnexpectedDependencyItem` the claim names. -/
theorem c3_counterexample :
    fetch_dependencies [("dependencies", Item.table [("name", Item.value (Value.integer 42))])]
      .Standard = .err (.UnexpectedVersionType "name" "Integer") :=
  rfl

/-- C3 (amended): a table entry whose item is a plain value that is neither a
string nor an inline table fails with `UnexpectedVersionType` carrying the
offending key and the observed kind — i.e. the code reuses the
version-field-type error for this case; `UnexpectedDependencyItem` (the
entry-shape error) is reserved for non-`Value` items. -/
theorem c3_plain_value_error (key : String) (v : Value)
    (h1 : value_to_type v ≠ "String") (h2 : value_to_type v ≠ "InlineTable") :
    classifyEntry key (Item.value v) =
      .err (.UnexpectedVersionType key (value_to_type v)) := by
  cases v with
  | string f => exact absurd rfl h1
  | inlineTable t => exact absurd rfl h2
  | integer i => rfl
  | float => rfl
  | boolean b => rfl
  | datetime => rfl
  | array elems => rfl

/-- C3 witness: the amended claim evaluated at `name = 42`. -/
theorem c3_witness :
    classifyEntry "name" (Item.value (Value.integer 42)) =
      .err (.UnexpectedVersionType "name" "Integer") :=
  c3_plain_value_error "name" (Value.integer 42) (by decide) (by decide)

theorem classifyEntries_err (pre : List (String × Item)) (key : String)
    (item : Item) (post : List (String × Item)) (e : FetchDependenciesError)
    (hpre : ∀ p ∈ pre, ∃ d, classifyEntry p.1 p.2 = .ok d)
    (hbad : classifyEntry key item = .err e) :
    classifyEntries (pre ++ (key, item) :: post) = .err e := by
  induction pre with
  | nil =>
    simp only [List.nil_append, classifyEntries]
    rw [hbad]
  | cons p pre ih =>
    obtain ⟨d, hd⟩ := hpre p (by simp)
    have hrest := ih (fun q hq => hpre q (by simp [hq]))
    obtain ⟨k, i⟩ := p
    simp only [List.cons_append, classifyEntries]
    rw [hd]
    show Outcome.map (fun ds => d :: ds) (classifyEntries (pre ++ (key, item) :: post)) =
      Outcome.err e
    rw [hrest]
    rfl

/-- C7: fetch is fail-fast with first-error-wins — whenever the group table
splits as `pre ++ (key, item) :: post` with every entry of `pre` classifying
successfully and `(key, item)` classifying to error `e`, the whole fetch
returns exactly `.err e` (carrying no partial list of the entries parsed
before the failure), whatever `post` contains. -/
theorem c7_first_error_wins (document : Document) (ty : DependencyType)
    (pre : List (String × Item)) (key : String) (item : Item)
    (post : List (String × Item)) (e : FetchDependenciesError)
    (hgroup : lookupFirst document (dependencyGroup ty) =
      some (Item.table (pre ++ (key, item) :: post)))
    (hpre : ∀ p ∈ pre, ∃ d, classifyEntry p.1 p.2 = .ok d)
    (hbad : classifyEntry key item = .err e) :
    fetch_dependencies document ty = .err e := by
  unfold fetch_dependencies
  rw [hgroup]
  exact classifyEntries_err pre key item post e hpre hbad

/-- C7 witness: a concrete document whose dependencies table holds a good
entry, then a malformed one, then a further entry; the fetch returns exactly
the first error. -/
theorem c7_witness :
    fetch_dependencies
      [("dependencies", Item.table
        [("good", Item.value (Value.string (Formatted.new "1.0.0"))),
         ("bad", Item.value (Value.boolean true)),
         ("later", Item.value (Value.integer 1))])]
      .Standard = .err (.UnexpectedVersionType "bad" "Boolean") :=
  c7_first_error_wins
    [("dependencies", Item.table
      [("good", Item.value (Value.string (Formatted.new "1.0.0"))),
       ("bad", Item.value (Value.boolean true)),
       ("later", Item.value (Value.integer 1))])]
    .Standard
    [("good", Item.value (Value.string (Formatted.new "1.0.0")))]
    "bad" (Item.value (Value.boolean true))
    [("later", Item.value (Value.integer 1))]
    (.UnexpectedVersionType "bad" "Boolean")
    rfl
    (by
      intro p hp
      simp only [List.mem_singleton] at hp
      subst hp
      exact ⟨{ name := "good",
               version := { value := Formatted.new "1.0.0",
                            version := ⟨1, 0, 0⟩, changed := false } }, rfl⟩)
    rfl

/-! ## Write-back of released handles (the commit of Rust's `&mut` borrow) -/

/-- Write the (possibly rewritten) version cell of one dependency entry back
into the entry's item, at the position the handle's `&mut` pointed to:
directly for a bare string entry, at the `version` field for an inline
table entry. -/
def writeVersionCell (item : Item) (cell : Formatted) : Item :=
  match item with
  | .value (.string _) => .value (.string cell)
  | .value (.inlineTable t) =>
    .value (.inlineTable (replaceFirst t "version" (fun v =>
      match v with
      | .string _ => .string cell
      | other => other)))
  | other => other

/-- Release one dependency's handle into the group table: the cell the
handle borrowed receives the handle's dropped cell state. -/
def writeBackEntry (tbl : List (String × Item)) (d : Dependency) :
    List (String × Item) :=
  replaceFirst tbl d.name (fun it => writeVersionCell it (Version.drop d.version).value)

/-- Release every handle returned by a fetch back into the document. -/
def releaseAll (document : Document) (ty : DependencyType)
    (deps : List Dependency) : Document :=
  replaceFirst document (dependencyGroup ty) (fun it =>
    match it with
    | .table tbl => .table (deps.foldl writeBackEntry tbl)
    | other => other)

theorem replaceFirst_congr_id {α : Type} (l : List (String × α)) (key : String)
    (f : α → α) (hf : ∀ a, f a = a) : replaceFirst l key f = l := by
  induction l with
  | nil => rfl
  | cons p rest ih =>
    obtain ⟨k, v⟩ := p
    by_cases hk : k = key <;> simp [replaceFirst, hk, hf, ih]

theorem replaceFirst_id_of_lookup {α : Type} {l : List (String × α)} {key : String}
    {a : α} (f : α → α) (hl : lookupFirst l key = some a) (hf : f a = a) :
    replaceFirst l key f = l := by
  induction l with
  | nil => cases hl
  | cons p rest ih =>
    obtain ⟨k, v⟩ := p
    by_cases hk : k = key
    · simp only [lookupFirst, if_pos hk, Option.some.injEq] at hl
      subst hl
      simp [replaceFirst, hk, hf]
    · simp only [lookupFirst, if_neg hk] at hl
      simp [replaceFirst, hk, ih hl]

theorem replaceFirst_mem_nodup {α : Type} {l : List (String × α)} {key : String}
    {a : α} (f : α → α) (hnd : (l.map Prod.fst).Nodup) (hmem : (key, a) ∈ l)
    (hf : f a = a) : replaceFirst l key f = l := by
  induction l with
  | nil => cases hmem
  | cons p rest ih =>
    obtain ⟨k, v⟩ := p
    simp only [List.map_cons, List.nodup_cons] at hnd
    rcases List.mem_cons.mp hmem with heq | hmem'
    · obtain ⟨h1, h2⟩ := Prod.mk.injEq .. ▸ heq
      subst h1
      subst h2
      simp [replaceFirst, hf]
    · by_cases hk : k = key
      · exfalso
        apply hnd.1
        subst hk
        exact List.mem_map.mpr ⟨(k, a), hmem', rfl⟩
      · simp [replaceFirst, hk, ih hnd.2 hmem']

theorem foldl_eq_of_fixed {α β : Type} (g : α → β → α) (tbl : α) (deps : List β)
    (h : ∀ d ∈ deps, g tbl d = tbl) : deps.foldl g tbl = tbl := by
  induction deps with
  | nil => rfl
  | cons d ds ih =>
    rw [List.foldl_cons, h d (by simp)]
    exact ih (fun x hx => h x (by simp [hx]))

theorem Version.new_ok {cell : Formatted} {v : Version}
    (h : Version.new cell = .ok v) :
    v = ⟨cell, v.version, false⟩ ∧ parseSemver cell.value = some v.version := by
  unfold Version.new at h
  cases hp : parseSemver cell.value with
  | none => rw [hp] at h; cases h
  | some ver =>
    rw [hp] at h
    injection h with h
    subst h
    exact ⟨rfl, rfl⟩

/-- Inversion of a successful classification: the dependency keeps the
entry's key as its name, its handle starts non-dirty, and writing the
handle's dropped cell back into the entry is the identity. -/
theorem classifyEntry_ok {key : String} {item : Item} {d : Dependency}
    (h : classifyEntry key item = .ok d) :
    d.name = key ∧ d.version.changed = false ∧
    writeVersionCell item (Version.drop d.version).value = item := by
  cases item with
  | none => exact absurd h (by simp [classifyEntry])
  | table t => exact absurd h (by simp [classifyEntry])
  | arrayOfTables ts => exact absurd h (by simp [classifyEntry])
  | value v =>
    cases v with
    | integer i => exact absurd h (by simp [classifyEntry, value_to_type])
    | float => exact absurd h (by simp [classifyEntry, value_to_type])
    | boolean b => exact absurd h (by simp [classifyEntry, value_to_type])
    | datetime => exact absurd h (by simp [classifyEntry, value_to_type])
    | array elems => exact absurd h (by simp [classifyEntry, value_to_type])
    | string f =>
      cases hn : Version.new f with
      | error e0 => simp [classifyEntry, hn] at h
      | ok v0 =>
        simp only [classifyEntry, hn, Outcome.ok.injEq] at h
        subst h
        obtain ⟨hv0, _⟩ := Version.new_ok hn
        refine ⟨rfl, by rw [hv0], ?_⟩
        conv_lhs => rw [hv0]
        simp [Version.drop, writeVersionCell]
    | inlineTable t =>
      cases hl : lookupFirst t "version" with
      | none => simp [classifyEntry, hl] at h
      | some w =>
        cases w with
        | integer i => simp [classifyEntry, hl] at h
        | float => simp [classifyEntry, hl] at h
        | boolean b => simp [classifyEntry, hl] at h
        | datetime => simp [classifyEntry, hl] at h
        | array elems => simp [classifyEntry, hl] at h
        | inlineTable t2 => simp [classifyEntry, hl] at h
        | string f =>
          cases hn : Version.new f with
          | error e0 => simp [classifyEntry, hl, hn] at h
          | ok v0 =>
            simp only [classifyEntry, hl, hn, Outcome.ok.injEq] at h
            subst h
            obtain ⟨hv0, _⟩ := Version.new_ok hn
            refine ⟨rfl, by rw [hv0], ?_⟩
            conv_lhs => rw [hv0]
            have hdrop : (Version.drop ⟨f, v0.version, false⟩).value = f := by
              simp [Version.drop]
            rw [show writeVersionCell (Item.value (Value.inlineTable t))
                (Version.drop ⟨f, v0.version, false⟩).value =
                Item.value (Value.inlineTable (replaceFirst t "version" (fun v =>
                  match v with
                  | .string _ => .string (Version.drop ⟨f, v0.version, false⟩).value
                  | other => other))) from rfl]
            rw [hdrop]
            congr 2
            exact replaceFirst_id_of_lookup _ hl rfl

theorem classifyEntries_ok_mem {tbl : List (String × Item)} {deps : List Dependency}
    (h : classifyEntries tbl = .ok deps) :
    ∀ d ∈ deps, ∃ it, (d.name, it) ∈ tbl ∧ classifyEntry d.name it = .ok d := by
  induction tbl generalizing deps with
  | nil =>
    simp only [classifyEntries, Outcome.ok.injEq] at h
    subst h
    intro d hd
    cases hd
  | cons p rest ih =>
    obtain ⟨k, it⟩ := p
    cases hc : classifyEntry k it with
    | err e => simp [classifyEntries, hc] at h
    | panics m => simp [classifyEntries, hc] at h
    | ok d0 =>
      simp only [classifyEntries, hc] at h
      cases hr : classifyEntries rest with
      | err e => rw [hr] at h; cases h
      | panics m => rw [hr] at h; cases h
      | ok ds =>
        rw [hr] at h
        simp only [Outcome.map, Outcome.ok.injEq] at h
        subst h
        intro d hd
        rcases List.mem_cons.mp hd with rfl | hd'
        · obtain ⟨hname, _, _⟩ := classifyEntry_ok hc
          exact ⟨it, by rw [hname]; exact List.mem_cons_self _ _, by rw [hname]; exact hc⟩
        · obtain ⟨it', hmem, hok⟩ := ih hr d hd'
          exact ⟨it', List.mem_cons_of_mem _ hmem, hok⟩

theorem writeBackEntry_id {tbl : List (String × Item)} {deps : List Dependency}
    (hnd : (tbl.map Prod.fst).Nodup) (hcl : classifyEntries tbl = .ok deps)
    {d : Dependency} (hd : d ∈ deps) : writeBackEntry tbl d = tbl := by
  obtain ⟨it, hmem, hok⟩ := classifyEntries_ok_mem hcl d hd
  obtain ⟨_, _, hwrite⟩ := classifyEntry_ok hok
  exact replaceFirst_mem_nodup _ hnd hmem hwrite

/-- C10: fetch itself never mutates the document — if fetch succeeds, all
returned handles are non-dirty (created with `changed = false`), so
releasing them all writes the original cells back unchanged and the
document is exactly as before (stated for tables with unique keys, which the
TOML source format guarantees); and if fetch fails there are no handles, so
releasing the empty collection likewise leaves the document untouched. -/
theorem c10_fetch_never_mutates :
    (∀ (document : Document) (ty : DependencyType) (tbl : List (String × Item))
       (deps : List Dependency),
       lookupFirst document (dependencyGroup ty) = some (Item.table tbl) →
       (tbl.map Prod.fst).Nodup →
       fetch_dependencies document ty = .ok deps →
       releaseAll document ty deps = document) ∧
    (∀ (document : Document) (ty : DependencyType),
       releaseAll document ty [] = document) := by
  constructor
  · intro document ty tbl deps hgroup hnd hfetch
    have hcl : classifyEntries tbl = .ok deps := by
      simp only [fetch_dependencies, hgroup] at hfetch
      exact hfetch
    unfold releaseAll
    refine replaceFirst_id_of_lookup _ hgroup ?_
    show Item.table (deps.foldl writeBackEntry tbl) = Item.table tbl
    exact congrArg Item.table
      (foldl_eq_of_fixed _ _ _ (fun d hd => writeBackEntry_id hnd hcl hd))
  · intro document ty
    refine replaceFirst_congr_id _ _ _ ?_
    intro a
    cases a <;> rfl

/-- A concrete document exercising both supported entry shapes. -/
def c10Doc : Document :=
  [("package", Item.value (Value.string (Formatted.new "demo"))),
   ("dependencies", Item.table
     [("alpha", Item.value (Value.string sampleCell)),
      ("beta", Item.value (Value.inlineTable
        [("version", Value.string (Formatted.new "0.19.8")),
         ("features", Value.array [])]))])]

/-- C10 witness: on `c10Doc`, fetch succeeds with two non-dirty handles, and
releasing them reproduces the document byte-for-byte. -/
theorem c10_witness :
    releaseAll c10Doc .Standard
      [⟨"alpha", ⟨sampleCell, ⟨1, 2, 3⟩, false⟩⟩,
       ⟨"beta", ⟨Formatted.new "0.19.8", ⟨0, 19, 8⟩, false⟩⟩] = c10Doc :=
  c10_fetch_never_mutates.1 c10Doc .Standard
    [("alpha", Item.value (Value.string sampleCell)),
     ("beta", Item.value (Value.inlineTable
       [("version", Value.string (Formatted.new "0.19.8")),
        ("features", Value.array [])]))]
    [⟨"alpha", ⟨sampleCell, ⟨1, 2, 3⟩, false⟩⟩,
     ⟨"beta", ⟨Formatted.new "0.19.8", ⟨0, 19, 8⟩, false⟩⟩]
    rfl (by decide) rfl
